import Mathlib

/-!
Verification of the `cardamaro/mime` MIME message parser.

The Go sources are shallowly embedded: strings are modelled as `String`
or `List Char`, byte streams as `List Nat`, and each Go function is
translated into a Lean function that mirrors its control flow.  The
current variant of `part.go` (the one with offset tracking, whose
`Decode` returns `(io.Reader, error)`) is the authority; components that
are referenced but absent from the sources (boundary reader, base64
cleaner, charset registry, attachment detection, the standard library
media-type parser) are modelled from the specification and marked as
such in their doc comments.
-/

namespace Mime

/-! ### Decimal numerals: analysis of `Nat.repr` (used by `strconv.Itoa` model) -/

/-- Reference form of the decimal digits of `n`, most significant first. -/
def myDigits (n : Nat) : List Char :=
  if h : n < 10 then [Nat.digitChar n]
  else myDigits (n / 10) ++ [Nat.digitChar (n % 10)]
termination_by n
decreasing_by exact Nat.div_lt_self (by omega) (by omega)

theorem myDigits_eq (n : Nat) :
    myDigits n = if n < 10 then [Nat.digitChar n]
      else myDigits (n / 10) ++ [Nat.digitChar (n % 10)] := by
  rw [myDigits]
  split <;> simp_all

theorem toDigitsCore_eq_myDigits (f : Nat) :
    ∀ (n : Nat) (l : List Char), n < f →
      Nat.toDigitsCore 10 f n l = myDigits n ++ l := by
  induction f with
  | zero => intro n l h; omega
  | succ f ih =>
    intro n l h
    by_cases h10 : n / 10 = 0
    · have hn : n < 10 := by omega
      rw [myDigits]
      simp only [Nat.toDigitsCore, h10, if_pos rfl, hn, dif_pos]
      have : n % 10 = n := Nat.mod_eq_of_lt hn
      rw [this]
      rfl
    · have hn : ¬ n < 10 := by
        intro hc
        exact h10 (Nat.div_eq_of_lt hc)
      rw [myDigits]
      simp only [Nat.toDigitsCore, h10, if_neg, hn, dif_neg, not_false_iff]
      have hlt : n / 10 < f := by
        have h1 : n / 10 < n := Nat.div_lt_self (by omega) (by omega)
        omega
      rw [ih (n / 10) (Nat.digitChar (n % 10) :: l) hlt]
      simp

theorem repr_data (n : Nat) : (Nat.repr n).data = myDigits n := by
  show (Nat.toDigits 10 n).asString.data = myDigits n
  unfold Nat.toDigits
  rw [toDigitsCore_eq_myDigits (n + 1) n [] (Nat.lt_succ_self n)]
  simp [List.asString]

theorem digitChar_inj : ∀ a < 10, ∀ b < 10,
    Nat.digitChar a = Nat.digitChar b → a = b := by decide

theorem digitChar_ne_dot : ∀ a < 10, Nat.digitChar a ≠ '.' := by decide

theorem myDigits_ne_nil (n : Nat) : myDigits n ≠ [] := by
  rw [myDigits]
  split <;> simp

theorem dot_not_mem_myDigits (n : Nat) : '.' ∉ myDigits n := by
  induction n using Nat.strong_induction_on with
  | _ n ih =>
    rw [myDigits]
    split
    · simp only [List.mem_singleton]
      intro hc
      exact digitChar_ne_dot n (by omega) hc.symm
    · intro hmem
      rcases List.mem_append.mp hmem with hl | hr
      · exact ih (n / 10) (Nat.div_lt_self (by omega) (by omega)) hl
      · simp only [List.mem_singleton] at hr
        exact digitChar_ne_dot (n % 10) (Nat.mod_lt _ (by omega)) hr.symm

theorem myDigits_inj (m : Nat) : ∀ (n : Nat), myDigits m = myDigits n → m = n := by
  induction m using Nat.strong_induction_on with
  | _ m ih =>
    intro n h
    rw [myDigits_eq m, myDigits_eq n] at h
    by_cases hm : m < 10 <;> by_cases hn : n < 10 <;>
      simp only [if_pos, if_neg, hm, hn, ite_true, ite_false] at h
    · exact digitChar_inj m hm n hn (List.singleton_injective h)
    · have hlen := congrArg List.length h
      simp only [List.length_singleton, List.length_append] at hlen
      have h0 : (myDigits (n / 10)).length = 0 := by omega
      exact absurd (List.length_eq_zero.mp h0) (myDigits_ne_nil _)
    · have hlen := congrArg List.length h
      simp only [List.length_singleton, List.length_append] at hlen
      have h0 : (myDigits (m / 10)).length = 0 := by omega
      exact absurd (List.length_eq_zero.mp h0) (myDigits_ne_nil _)
    ·
      have hrev := congrArg List.reverse h
      simp only [List.reverse_append, List.reverse_singleton, List.singleton_append,
        List.cons.injEq] at hrev
      have hdig : m % 10 = n % 10 :=
        digitChar_inj _ (Nat.mod_lt _ (by omega)) _ (Nat.mod_lt _ (by omega)) hrev.1
      have hquot : m / 10 = n / 10 := by
        have := congrArg List.reverse hrev.2
        simp only [List.reverse_reverse] at this
        exact ih (m / 10) (Nat.div_lt_self (by omega) (by omega)) (n / 10) this
      omega

theorem repr_inj (m n : Nat) (h : Nat.repr m = Nat.repr n) : m = n :=
  myDigits_inj m n (by rw [← repr_data, ← repr_data, h])

/-! ### Part shapes and the descriptor assignment of `readPart` / `parseParts`

`Part.readPart` branches three ways: a part whose parsed `Content-Type`
carries a nonempty `boundary` parameter recurses through `parseParts`
(on-wire children); a part whose content type is `message/rfc822`
creates one inner part that starts with its container's `Descriptor`;
anything else is a leaf.  `PartShape` abstracts an input by that
branching structure, and `readPartM` reproduces exactly the descriptor
strings and tree that `readPart`/`parseParts` assign for it. -/

mutual
inductive PartShape : Type where
  | leaf : PartShape
  | msg : PartShape → PartShape
  | mpart : PartShapeList → PartShape
inductive PartShapeList : Type where
  | nil : PartShapeList
  | cons : PartShape → PartShapeList → PartShapeList
end

def PartShapeList.get? : PartShapeList → Nat → Option PartShape
  | .nil, _ => none
  | .cons c _, 0 => some c
  | .cons _ cs, n + 1 => PartShapeList.get? cs n

/-- A parsed `Part` reduced to the fields the descriptor claims are
about: its `Descriptor` string and its `Subparts` in on-wire order. -/
inductive PNode : Type where
  | mk : String → List PNode → PNode

def PNode.desc : PNode → String
  | .mk d _ => d

def PNode.children : PNode → List PNode
  | .mk _ c => c

/-- The child descriptor assigned in the `parseParts` loop (part.go,
lines 517-522): `strconv.Itoa(index)` at the first recursion level,
otherwise `parent.Descriptor + "." + strconv.Itoa(index)`. -/
def childDescM (first : Bool) (d0 : String) (j : Nat) : String :=
  if first then Nat.repr j else d0 ++ "." ++ Nat.repr j

mutual
/-- Model of `Part.readPart` (part.go lines 413-488) restricted to the
descriptor/tree assignment: a multipart runs `parseParts` (root tagged
`"0"` on entry, non-root suffixed `".0"` after its children), a
`message/rfc822` part creates one inner part carrying the container's
descriptor, and leaves keep their entry descriptor. -/
def readPartM (isRoot : Bool) (d : String) : PartShape → PNode
  | .leaf => .mk d []
  | .msg inner => .mk d [readPartM false d inner]
  | .mpart cs =>
      let d0 := if isRoot then "0" else d
      .mk (if isRoot then d0 else d0 ++ ".0") (readPartLst isRoot d0 1 cs)
/-- The `parseParts` loop over the sibling parts, `k` being the 1-based
`indexDescriptor` of the first remaining sibling. -/
def readPartLst (first : Bool) (d0 : String) (k : Nat) : PartShapeList → List PNode
  | .nil => []
  | .cons c cs =>
      readPartM false (childDescM first d0 k) c :: readPartLst first d0 (k + 1) cs
end

/-- Tree lookup along a path of 0-based child indices. -/
def nodeAt : PNode → List Nat → Option PNode
  | n, [] => some n
  | n, i :: p => (n.children.get? i).bind (fun c => nodeAt c p)

/-- Shape lookup along the same paths (`msg` has one child, index 0). -/
def shapeAt : PartShape → List Nat → Option PartShape
  | s, [] => some s
  | .leaf, _ :: _ => none
  | .msg t, i :: p => if i = 0 then shapeAt t p else none
  | .mpart cs, i :: p => (cs.get? i).bind (fun c => shapeAt c p)

/-- Modelled from the spec's words (§4.G, descriptor semantics): the
descriptor of the part reached from a non-root part with entry
descriptor `d` — a leaf keeps `d`, a `message/rfc822` inner part
inherits it, stepping into child `i` of a multipart appends
`"." ++ (i+1)`, and a non-root multipart itself ends with `".0"`. -/
def specDescAux (d : String) : PartShape → List Nat → Option String
  | .leaf, [] => some d
  | .leaf, _ :: _ => none
  | .msg t, [] => some d
  | .msg t, i :: p => if i = 0 then specDescAux d t p else none
  | .mpart _, [] => some (d ++ ".0")
  | .mpart cs, i :: p =>
      match cs.get? i with
      | some c => specDescAux (d ++ "." ++ Nat.repr (i + 1)) c p
      | none => none

/-- Modelled from the spec's words (§4.G): the whole-tree descriptor
scheme.  A multipart root is `"0"` and its `i`-th child (1-based) is
`toString i`; a non-multipart root keeps the empty descriptor. -/
def specDescRoot : PartShape → List Nat → Option String
  | .leaf, [] => some ""
  | .leaf, _ :: _ => none
  | .msg t, [] => some ""
  | .msg t, i :: p => if i = 0 then specDescAux "" t p else none
  | .mpart _, [] => some "0"
  | .mpart cs, i :: p =>
      match cs.get? i with
      | some c => specDescAux (Nat.repr (i + 1)) c p
      | none => none

/-- The descriptor the model assigns to the node at `p` of the tree
parsed from root shape `s`. -/
def descAt (s : PartShape) (p : List Nat) : Option String :=
  (nodeAt (readPartM true "" s) p).map PNode.desc

theorem readPartLst_get? : ∀ (cs : PartShapeList) (first : Bool) (d0 : String) (k i : Nat),
    (readPartLst first d0 k cs).get? i =
      (cs.get? i).map (readPartM false (childDescM first d0 (k + i)))
  | .nil, first, d0, k, i => by cases i <;> rfl
  | .cons c cs, first, d0, k, 0 => rfl
  | .cons c cs, first, d0, k, i + 1 => by
      show (readPartLst first d0 (k + 1) cs).get? i = _
      rw [readPartLst_get? cs first d0 (k + 1) i]
      have hk : k + 1 + i = k + (i + 1) := by omega
      rw [hk]
      rfl

theorem optBindMapDesc (o : Option PartShape) (f : PartShape → PNode) (p : List Nat) :
    ((o.map f).bind (fun n => nodeAt n p)).map PNode.desc =
      o.bind (fun c => (nodeAt (f c) p).map PNode.desc) := by
  cases o <;> rfl

theorem specDescAux_mpart_cons (d : String) (cs : PartShapeList) (i : Nat) (p : List Nat) :
    specDescAux d (.mpart cs) (i :: p) =
      (cs.get? i).bind (fun c => specDescAux (d ++ "." ++ Nat.repr (i + 1)) c p) := by
  cases h : PartShapeList.get? cs i <;> simp [specDescAux, h]

theorem specDescRoot_mpart_cons (cs : PartShapeList) (i : Nat) (p : List Nat) :
    specDescRoot (.mpart cs) (i :: p) =
      (cs.get? i).bind (fun c => specDescAux (Nat.repr (i + 1)) c p) := by
  cases h : PartShapeList.get? cs i <;> simp [specDescRoot, h]

mutual
theorem descAux_spec : ∀ (s : PartShape) (d : String) (p : List Nat),
    (nodeAt (readPartM false d s) p).map PNode.desc = specDescAux d s p
  | .leaf, d, [] => rfl
  | .leaf, d, i :: p => by cases i <;> rfl
  | .msg t, d, [] => rfl
  | .msg t, d, 0 :: p => descAux_spec t d p
  | .msg t, d, (i + 1) :: p => by
      show (none : Option PNode).map PNode.desc = specDescAux d (.msg t) ((i + 1) :: p)
      simp [specDescAux]
  | .mpart cs, d, [] => rfl
  | .mpart cs, d, i :: p => by
      show (((readPartLst false d 1 cs).get? i).bind (fun c => nodeAt c p)).map PNode.desc = _
      rw [readPartLst_get?]
      have h1 : (1 : Nat) + i = i + 1 := by omega
      rw [h1, optBindMapDesc, specDescAux_mpart_cons]
      exact descAuxLst_spec cs i (childDescM false d (i + 1)) p
/-- Companion statement iterating `descAux_spec` over a sibling list;
`d` is the entry descriptor handed to child `i`. -/
theorem descAuxLst_spec : ∀ (cs : PartShapeList) (i : Nat) (d : String) (p : List Nat),
    ((cs.get? i).bind (fun c => (nodeAt (readPartM false d c) p).map PNode.desc)) =
      ((cs.get? i).bind (fun c => specDescAux d c p))
  | .nil, i, d, p => by cases i <;> rfl
  | .cons c cs, 0, d, p => descAux_spec c d p
  | .cons c cs, i + 1, d, p => descAuxLst_spec cs i d p
end

theorem descAt_spec (s : PartShape) (p : List Nat) : descAt s p = specDescRoot s p := by
  cases s with
  | leaf =>
    cases p with
    | nil => rfl
    | cons i p => cases i <;> rfl
  | msg t =>
    cases p with
    | nil => rfl
    | cons i p =>
      cases i with
      | zero => exact descAux_spec t "" p
      | succ i =>
        show (none : Option PNode).map PNode.desc = _
        simp [specDescRoot]
  | mpart cs =>
    cases p with
    | nil => rfl
    | cons i p =>
      show (((readPartLst true "0" 1 cs).get? i).bind (fun c => nodeAt c p)).map PNode.desc = _
      rw [readPartLst_get?]
      have h1 : (1 : Nat) + i = i + 1 := by omega
      rw [h1, optBindMapDesc, specDescRoot_mpart_cons]
      exact descAuxLst_spec cs i (Nat.repr (i + 1)) p

/-! ### Injectivity of descriptor assignment on rfc822-free trees -/

mutual
def noMsgB : PartShape → Bool
  | .leaf => true
  | .msg _ => false
  | .mpart cs => noMsgLstB cs
def noMsgLstB : PartShapeList → Bool
  | .nil => true
  | .cons c cs => noMsgB c && noMsgLstB cs
end

theorem noMsg_get? : ∀ (cs : PartShapeList) (i : Nat) (c : PartShape),
    noMsgLstB cs = true → cs.get? i = some c → noMsgB c = true
  | .nil, i, c, _, h => by cases i <;> simp [PartShapeList.get?] at h
  | .cons a cs, 0, c, hn, h => by
      simp only [PartShapeList.get?, Option.some.injEq] at h
      subst h
      simp only [noMsgLstB, Bool.and_eq_true] at hn
      exact hn.1
  | .cons a cs, i + 1, c, hn, h => by
      simp only [noMsgLstB, Bool.and_eq_true] at hn
      exact noMsg_get? cs i c hn.2 h

/-- The character block contributed below a segment boundary: each
numeric segment is rendered in decimal and preceded by a dot. -/
def dotTail : List Nat → List Char
  | [] => []
  | k :: l => '.' :: (myDigits k ++ dotTail l)

/-- Dotted-decimal rendering of a nonempty segment list. -/
def dotJoin : List Nat → List Char
  | [] => []
  | [k] => myDigits k
  | k :: l => myDigits k ++ '.' :: dotJoin l

theorem dotJoin_cons : ∀ (k : Nat) (l : List Nat), dotJoin (k :: l) = myDigits k ++ dotTail l
  | k, [] => by simp [dotJoin, dotTail]
  | k, a :: l => by
      show myDigits k ++ '.' :: dotJoin (a :: l) = _
      rw [dotJoin_cons a l]
      simp [dotTail]

theorem dotTail_shape (t : List Nat) : dotTail t = [] ∨ ∃ r, dotTail t = '.' :: r := by
  cases t with
  | nil => exact Or.inl rfl
  | cons a t => exact Or.inr ⟨_, rfl⟩

theorem dotfree_prefix_eq : ∀ (a1 a2 r1 r2 : List Char),
    '.' ∉ a1 → '.' ∉ a2 →
    (r1 = [] ∨ ∃ t, r1 = '.' :: t) → (r2 = [] ∨ ∃ t, r2 = '.' :: t) →
    a1 ++ r1 = a2 ++ r2 → a1 = a2 ∧ r1 = r2
  | [], [], r1, r2, _, _, _, _, h => ⟨rfl, h⟩
  | [], c :: a2, r1, r2, _, h2, hr1, _, h => by
      rcases hr1 with h0 | ⟨t, ht⟩
      · subst h0; simp at h
      · subst ht
        simp only [List.nil_append, List.cons_append, List.cons.injEq] at h
        have hmem : '.' ∈ c :: a2 := by rw [← h.1]; exact List.mem_cons_self _ _
        exact absurd hmem h2
  | c :: a1, [], r1, r2, h1, _, _, hr2, h => by
      rcases hr2 with h0 | ⟨t, ht⟩
      · subst h0; simp at h
      · subst ht
        simp only [List.nil_append, List.cons_append, List.cons.injEq] at h
        have hmem : '.' ∈ c :: a1 := by rw [h.1]; exact List.mem_cons_self _ _
        exact absurd hmem h1
  | c1 :: a1, c2 :: a2, r1, r2, h1, h2, hr1, hr2, h => by
      simp only [List.cons_append, List.cons.injEq] at h
      have hrec := dotfree_prefix_eq a1 a2 r1 r2
        (fun hm => h1 (List.mem_cons_of_mem _ hm))
        (fun hm => h2 (List.mem_cons_of_mem _ hm)) hr1 hr2 h.2
      exact ⟨by rw [h.1, hrec.1], hrec.2⟩

theorem dotTail_inj : ∀ (t1 t2 : List Nat), dotTail t1 = dotTail t2 → t1 = t2
  | [], [], _ => rfl
  | [], a :: t, h => by simp [dotTail] at h
  | a :: t, [], h => by simp [dotTail] at h
  | a :: t1, b :: t2, h => by
      simp only [dotTail, List.cons.injEq, true_and] at h
      have hp := dotfree_prefix_eq (myDigits a) (myDigits b) (dotTail t1) (dotTail t2)
        (dot_not_mem_myDigits a) (dot_not_mem_myDigits b)
        (dotTail_shape t1) (dotTail_shape t2) h
      rw [myDigits_inj a b hp.1, dotTail_inj t1 t2 hp.2]

theorem dotJoin_inj (l1 l2 : List Nat) (h1 : l1 ≠ []) (h2 : l2 ≠ [])
    (h : dotJoin l1 = dotJoin l2) : l1 = l2 := by
  match l1, l2 with
  | [], _ => exact absurd rfl h1
  | _ :: _, [] => exact absurd rfl h2
  | k1 :: t1, k2 :: t2 =>
    rw [dotJoin_cons k1 t1, dotJoin_cons k2 t2] at h
    have hp := dotfree_prefix_eq (myDigits k1) (myDigits k2) (dotTail t1) (dotTail t2)
      (dot_not_mem_myDigits k1) (dot_not_mem_myDigits k2)
      (dotTail_shape t1) (dotTail_shape t2) h
    rw [myDigits_inj k1 k2 hp.1, dotTail_inj t1 t2 hp.2]

/-- The numeric segment list of a descriptor: on-wire indices shifted to
1-based, with a trailing `0` marking a multipart. -/
def fullSegs (p : List Nat) (mp : Bool) : List Nat :=
  p.map (· + 1) ++ (if mp then [0] else [])

theorem takeWhile_fullSegs (p : List Nat) (mp : Bool) :
    (fullSegs p mp).takeWhile (fun k => k != 0) = p.map (· + 1) := by
  induction p with
  | nil => cases mp <;> simp [fullSegs, List.takeWhile]
  | cons a p ih =>
    show List.takeWhile _ ((a + 1) :: fullSegs p mp) = _
    rw [List.takeWhile_cons]
    simp only [bne_iff_ne, ne_eq, Nat.succ_ne_zero, not_false_iff, if_true, ih]
    rfl

theorem fullSegs_inj (p1 p2 : List Nat) (m1 m2 : Bool)
    (h : fullSegs p1 m1 = fullSegs p2 m2) : p1 = p2 := by
  have hm : p1.map (· + 1) = p2.map (· + 1) := by
    rw [← takeWhile_fullSegs p1 m1, ← takeWhile_fullSegs p2 m2, h]
  have : Function.Injective (fun k : Nat => k + 1) := fun a b hab => by
    have hab' : a + 1 = b + 1 := hab
    omega
  exact List.map_injective_iff.mpr this hm

theorem fullSegs_cons (i : Nat) (p : List Nat) (mp : Bool) :
    fullSegs (i :: p) mp = (i + 1) :: fullSegs p mp := by
  simp [fullSegs]

theorem specAux_data : ∀ (p : List Nat) (s : PartShape) (d : String) (str : String),
    noMsgB s = true → specDescAux d s p = some str →
    ∃ mp : Bool, str.data = d.data ++ dotTail (fullSegs p mp) := by
  intro p
  induction p with
  | nil =>
    intro s d str hn h
    cases s with
    | leaf =>
      refine ⟨false, ?_⟩
      simp only [specDescAux, Option.some.injEq] at h
      subst h
      simp [fullSegs, dotTail]
    | msg t => simp [noMsgB] at hn
    | mpart cs =>
      refine ⟨true, ?_⟩
      simp only [specDescAux, Option.some.injEq] at h
      subst h
      have h0 : myDigits 0 = ['0'] := by rw [myDigits_eq]; rfl
      rw [String.data_append]
      show d.data ++ ".0".data = d.data ++ dotTail [0]
      simp [dotTail, h0]
  | cons i p ih =>
    intro s d str hn h
    cases s with
    | leaf => simp [specDescAux] at h
    | msg t => simp [noMsgB] at hn
    | mpart cs =>
      rw [specDescAux_mpart_cons] at h
      cases hc : PartShapeList.get? cs i with
      | none => rw [hc] at h; simp at h
      | some c =>
        rw [hc] at h
        simp only [Option.some_bind] at h
        obtain ⟨mp, hmp⟩ := ih c (d ++ "." ++ Nat.repr (i + 1)) str
          (noMsg_get? cs i c hn hc) h
        refine ⟨mp, ?_⟩
        rw [hmp, String.data_append, String.data_append, repr_data]
        rw [fullSegs_cons]
        show d.data ++ ['.'] ++ myDigits (i + 1) ++ dotTail (fullSegs p mp) =
          d.data ++ ('.' :: (myDigits (i + 1) ++ dotTail (fullSegs p mp)))
        simp

theorem specRoot_data (cs : PartShapeList) (p : List Nat) (str : String)
    (hn : noMsgLstB cs = true) (h : specDescRoot (.mpart cs) p = some str) :
    ∃ mp, str.data = dotJoin (fullSegs p mp) ∧ fullSegs p mp ≠ [] := by
  cases p with
  | nil =>
    refine ⟨true, ?_, by simp [fullSegs]⟩
    simp only [specDescRoot, Option.some.injEq] at h
    subst h
    have h0 : myDigits 0 = ['0'] := by rw [myDigits_eq]; rfl
    show "0".data = dotJoin (fullSegs [] true)
    simp [fullSegs, dotJoin, h0]
  | cons i p =>
    rw [specDescRoot_mpart_cons] at h
    cases hc : PartShapeList.get? cs i with
    | none => rw [hc] at h; simp at h
    | some c =>
      rw [hc] at h
      simp only [Option.some_bind] at h
      obtain ⟨mp, hmp⟩ := specAux_data p c (Nat.repr (i + 1)) str (noMsg_get? cs i c hn hc) h
      refine ⟨mp, ?_, by simp [fullSegs_cons]⟩
      rw [hmp, repr_data, fullSegs_cons, dotJoin_cons]

/-! ### Claims C1 and C2 -/

/-- Claim C1: descriptor assignment by `parseParts` follows the spec
scheme — for a multipart root the root's `Descriptor` is `"0"`, the
`i`-th first-level child (1-based, on-wire order) gets the decimal
string of `i`, and a nested multipart child ends with `".0"` appended
after its children are parsed, so a child multipart at index 2 ends as
`"2.0"` with children `"2.1"`, `"2.2"`, and so on for deeper nesting.
Stated as: the model of `readPart`/`parseParts` assigns to every node
of every tree exactly the descriptor demanded by the spec scheme
(`specDescRoot`), together with the concrete index-2 example. -/
theorem c1_descriptor_scheme :
    (∀ (s : PartShape) (p : List Nat), descAt s p = specDescRoot s p) ∧
    (descAt (.mpart (.cons .leaf (.cons (.mpart (.cons .leaf (.cons .leaf .nil))) .nil))) []
        = some "0" ∧
      descAt (.mpart (.cons .leaf (.cons (.mpart (.cons .leaf (.cons .leaf .nil))) .nil))) [0]
        = some "1" ∧
      descAt (.mpart (.cons .leaf (.cons (.mpart (.cons .leaf (.cons .leaf .nil))) .nil))) [1]
        = some "2.0" ∧
      descAt (.mpart (.cons .leaf (.cons (.mpart (.cons .leaf (.cons .leaf .nil))) .nil))) [1, 0]
        = some "2.1" ∧
      descAt (.mpart (.cons .leaf (.cons (.mpart (.cons .leaf (.cons .leaf .nil))) .nil))) [1, 1]
        = some "2.2") :=
  ⟨descAt_spec, rfl, rfl, rfl, rfl, rfl⟩

/-- Claim C2 (counterexample): in the tree parsed from a multipart root
whose first child is a `message/rfc822` part with non-multipart
content, the rfc822 container (path `[0]`) and the inner part it
creates (path `[0, 0]`) are distinct nodes carrying the same
descriptor `"1"`, so descriptor assignment is not a bijection on tree
nodes. -/
theorem c2_counterexample :
    (nodeAt (readPartM true "" (.mpart (.cons (.msg .leaf) .nil))) [0]).map PNode.desc
        = some "1" ∧
      (nodeAt (readPartM true "" (.mpart (.cons (.msg .leaf) .nil))) [0, 0]).map PNode.desc
        = some "1" ∧
      ([0] : List Nat) ≠ [0, 0] :=
  ⟨rfl, rfl, by simp⟩

/-- Claim C2 (amended): on every parsed tree containing no
`message/rfc822` part, the `Descriptor` field uniquely identifies each
`Part` within its tree (descriptor assignment is injective on tree
nodes); a `message/rfc822` container's inner part is created with the
container's own descriptor, so trees with a non-multipart rfc822
payload violate uniqueness. -/
theorem c2_amended (s : PartShape) (hs : noMsgB s = true)
    (p1 p2 : List Nat) (n1 n2 : PNode)
    (h1 : nodeAt (readPartM true "" s) p1 = some n1)
    (h2 : nodeAt (readPartM true "" s) p2 = some n2)
    (hd : n1.desc = n2.desc) : p1 = p2 := by
  have e1 : descAt s p1 = some n1.desc := by simp [descAt, h1]
  have e2 : descAt s p2 = some n2.desc := by simp [descAt, h2]
  rw [descAt_spec] at e1 e2
  cases s with
  | msg t => simp [noMsgB] at hs
  | leaf =>
    have hp1 : p1 = [] := by
      cases p1 with
      | nil => rfl
      | cons i p => simp [specDescRoot] at e1
    have hp2 : p2 = [] := by
      cases p2 with
      | nil => rfl
      | cons i p => simp [specDescRoot] at e2
    rw [hp1, hp2]
  | mpart cs =>
    obtain ⟨m1, hd1, hne1⟩ := specRoot_data cs p1 _ hs e1
    obtain ⟨m2, hd2, hne2⟩ := specRoot_data cs p2 _ hs e2
    have hdata : dotJoin (fullSegs p1 m1) = dotJoin (fullSegs p2 m2) := by
      rw [← hd1, ← hd2, hd]
    exact fullSegs_inj p1 p2 m1 m2 (dotJoin_inj _ _ hne1 hne2 hdata)

/-- Witness for `c2_amended`: its hypotheses are satisfiable — a
concrete rfc822-free two-leaf multipart with both lookups at path
`[1]` yielding the node with descriptor `"2"`. -/
theorem c2_amended_witness :
    noMsgB (.mpart (.cons .leaf (.cons .leaf .nil))) = true ∧ ([1] : List Nat) = [1] :=
  ⟨rfl, c2_amended (.mpart (.cons .leaf (.cons .leaf .nil))) rfl [1] [1]
    (.mk "2" []) (.mk "2" []) rfl rfl rfl⟩

/-! ### Go string primitives, modelled over character lists

These mirror the Go standard-library string functions used by the
sources (`strings.Split`, `strings.Contains`, `strings.Replace`,
`strings.ToLower` restricted to ASCII, `textproto.TrimBytes`), written
with structural recursion so the kernel can evaluate them. -/

def isPre : List Char → List Char → Bool
  | [], _ => true
  | _ :: _, [] => false
  | p :: ps, c :: cs => p == c && isPre ps cs

def splitGo (sep : List Char) : Nat → List Char → List Char → List (List Char)
  | 0, _, acc => [acc.reverse]
  | _ + 1, [], acc => [acc.reverse]
  | f + 1, c :: cs, acc =>
      if isPre sep (c :: cs) then
        acc.reverse :: splitGo sep f ((c :: cs).drop sep.length) []
      else splitGo sep f cs (c :: acc)

def containsGo (pat : List Char) : List Char → Bool
  | [] => isPre pat []
  | c :: cs => isPre pat (c :: cs) || containsGo pat cs

def replaceGo (pat rep : List Char) : Nat → List Char → List Char
  | 0, s => s
  | _ + 1, [] => []
  | f + 1, c :: cs =>
      if isPre pat (c :: cs) then rep ++ replaceGo pat rep f ((c :: cs).drop pat.length)
      else c :: replaceGo pat rep f cs

/-- `strings.Split` (for nonempty separators, the only use here). -/
def strSplit (s sep : String) : List String :=
  (splitGo sep.data (s.data.length + 1) s.data []).map (fun l => ⟨l⟩)

/-- `strings.Contains`. -/
def strContains (s pat : String) : Bool := containsGo pat.data s.data

/-- `strings.Replace(s, pat, rep, -1)`. -/
def strReplace (s pat rep : String) : String :=
  ⟨replaceGo pat.data rep.data (s.data.length + 1) s.data⟩

def isSpTab (c : Char) : Bool := c == ' ' || c == '\t'

/-- `textproto.TrimBytes`: strip leading and trailing space/tab. -/
def strTrim (s : String) : String :=
  ⟨((s.data.dropWhile isSpTab).reverse.dropWhile isSpTab).reverse⟩

def lowerChar (c : Char) : Char :=
  if 'A' ≤ c ∧ c ≤ 'Z' then Char.ofNat (c.toNat + 32) else c

/-- `strings.ToLower`, restricted to ASCII letters (all inputs the
claims exercise are ASCII). -/
def lowerStr (s : String) : String := ⟨s.data.map lowerChar⟩

/-! ### `parseMediaType` and its tolerance ladder (header.go 191-227) -/

/-- Faithful embedding of `parseBadContentType` (header.go lines
213-227): split on `sep`; keep segments without `=` and the first
segment for each parameter name; rejoin with `";"` after each kept
segment. -/
def parseBadContentType (ctype sep : String) : String :=
  (strSplit ctype sep).foldl
    (fun mctype p =>
      if strContains p "=" then
        let key := (strSplit p "=").headD ""
        if !(strContains mctype (key ++ "=")) then mctype ++ p ++ ";" else mctype
      else mctype ++ p ++ ";")
    ""

/-- The external strict media-type parser (`mime.ParseMediaType` of the
Go standard library, an external collaborator per the spec):
`(type/subtype, params)` on success, an error value on failure. -/
abbrev StrictMT := String → Except String (String × List (String × String))

/-- The third ladder rung's massaged string: space-separated
deduplication, with `name=""` patched to `name=" "` (header.go lines
199-203). -/
def spaceFixed (ctype : String) : String :=
  let m := parseBadContentType ctype " "
  if strContains m "name=\"\"" then strReplace m "name=\"\"" "name=\" \"" else m

/-- Faithful embedding of `parseMediaType` (header.go lines 191-211),
parameterized by the strict parser: strict parse, then
semicolon-dedup retry, then space-dedup retry; on total failure the
code returns `("", empty-map, err)` where `err` is the error variable
as last assigned — the error of the third attempt. -/
def parseMediaTypeG (strict : StrictMT) (ctype : String) :
    String × List (String × String) × Option String :=
  match strict ctype with
  | .ok (t, ps) => (t, ps, none)
  | .error _ =>
    match strict (parseBadContentType ctype ";") with
    | .ok (t, ps) => (t, ps, none)
    | .error _ =>
      match strict (spaceFixed ctype) with
      | .ok (t, ps) => (t, ps, none)
      | .error e => ("", [], some e)

/-- Modelled from the spec's words (§4.C): the tolerance ladder as an
ordered list of attempts. -/
def ladderAttempts (ctype : String) : List String :=
  [ctype, parseBadContentType ctype ";", spaceFixed ctype]

/-- First successful attempt wins; on total failure, the error of the
final attempt together with an empty parameter map. -/
def runLadder (strict : StrictMT) : List String → String × List (String × String) × Option String
  | [] => ("", [], none)
  | [a] =>
      match strict a with
      | .ok (t, ps) => (t, ps, none)
      | .error e => ("", [], some e)
  | a :: rest =>
      match strict a with
      | .ok (t, ps) => (t, ps, none)
      | .error _ => runLadder strict rest

def mediaTypeLadder (strict : StrictMT) (ctype : String) :
    String × List (String × String) × Option String :=
  runLadder strict (ladderAttempts ctype)

/-- Claim C9 (counterexample): with a strict parser that reports each
failed input as its own error, the all-fail result of `parseMediaType`
on `"a=b c"` carries the error of the third massaged attempt
(`"a=b;c;"`), not the original strict-parse error (`"a=b c"`). -/
theorem c9_counterexample :
    (fun s => (Except.error s : Except String (String × List (String × String)))) "a=b c"
        = Except.error "a=b c" ∧
      (parseMediaTypeG (fun s => Except.error s) "a=b c").2.2 = some "a=b;c;" ∧
      some ("a=b;c;" : String) ≠ some ("a=b c" : String) :=
  ⟨rfl, by decide, by decide⟩

/-- Claim C9 (amended): `parseMediaType` applies the tolerance ladder
in order — strict parse, semicolon-dedup retry, space-dedup retry
(with `name=""` patched to `name=" "`) — returning the first
successful result; when all three attempts fail it returns the error
of the final (space-dedup) attempt together with an empty parameter
map. -/
theorem c9_amended (strict : StrictMT) (ctype : String) :
    parseMediaTypeG strict ctype = mediaTypeLadder strict ctype := by
  unfold parseMediaTypeG mediaTypeLadder ladderAttempts
  cases h1 : strict ctype with
  | ok v => obtain ⟨t, ps⟩ := v; simp [runLadder, h1]
  | error e1 =>
    cases h2 : strict (parseBadContentType ctype ";") with
    | ok v => obtain ⟨t, ps⟩ := v; simp [runLadder, h1, h2]
    | error e2 =>
      cases h3 : strict (spaceFixed ctype) with
      | ok v => obtain ⟨t, ps⟩ := v; simp [runLadder, h1, h2, h3]
      | error e3 => simp [runLadder, h1, h2, h3]

/-! ### The decode pipeline (`Part.Decode`, part.go lines 330-389) -/

/-- The fields of a parsed `Part` that `Decode` reads: the
`Content-Transfer-Encoding` header value, the `Charset`,
`Disposition` and `Filename` fields, the accumulated `Errors`, and the
bytes seen through the body section reader that `readPart` installed
(the window `[PartOffset+HeaderLen, PartOffset+PartLen)` of the
backing store, part.go lines 482-483). -/
structure DPart where
  headerEncoding : String
  charset : String
  disposition : String
  filename : String
  errors : List String
  body : List Nat
deriving DecidableEq

/-- Modelled from the spec: `detectAttachmentHeader` is absent from the
sources; §4.H step 3 gives the heuristic — a part is an attachment iff
its disposition is `attachment` or it carries a filename. -/
def detectAttachment (p : DPart) : Bool :=
  p.disposition == "attachment" || p.filename != ""

/-- Modelled from the spec (§4.E): the base64 cleaner passes through
bytes of the base64 alphabet and drops whitespace, `=` padding, and
(with a `MalformedBase64` diagnostic kept on the cleaner itself) any
other byte.  Only the surviving stream reaches the decoder. -/
def isB64Char (c : Nat) : Bool :=
  (65 ≤ c && c ≤ 90) || (97 ≤ c && c ≤ 122) || (48 ≤ c && c ≤ 57) || c == 43 || c == 47

def b64Clean (bs : List Nat) : List Nat := bs.filter isB64Char

def b64Val (c : Nat) : Nat :=
  if 65 ≤ c ∧ c ≤ 90 then c - 65
  else if 97 ≤ c ∧ c ≤ 122 then c - 71
  else if 48 ≤ c ∧ c ≤ 57 then c + 4
  else if c = 43 then 62
  else 63

/-- Modelled from the Go standard library collaborator
`base64.NewDecoder(base64.RawStdEncoding, ·)` read to exhaustion:
groups of four alphabet bytes yield three bytes; a final group of
three yields two, of two yields one. -/
def b64Decode : List Nat → List Nat
  | a :: b :: c :: d :: rest =>
      (b64Val a * 4 + b64Val b / 16) ::
        (b64Val b % 16 * 16 + b64Val c / 4) ::
        (b64Val c % 4 * 64 + b64Val d) :: b64Decode rest
  | [a, b, c] =>
      [b64Val a * 4 + b64Val b / 16, b64Val b % 16 * 16 + b64Val c / 4]
  | [a, b] => [b64Val a * 4 + b64Val b / 16]
  | [_] => []
  | [] => []

/-- The charset conversion registry, an external collaborator
(`newCharsetReader` in the sources, spec §6): a label and a byte
stream yield a converted stream or fail. -/
abbrev CsReg := String → List Nat → Option (List Nat)

/-- The transfer-decoding switch of `Decode` (part.go lines 338-356):
quoted-printable runs the cleaner plus standard decoder (kept
abstract as `qpPipe`, both collaborators being outside the sources),
base64 runs cleaner plus raw decoder, and the identity encodings and
the unrecognized-encoding branch leave the stream untouched. -/
def transferDecode (qpPipe : List Nat → List Nat) (enc : String) (body : List Nat) : List Nat :=
  if enc == "quoted-printable" then qpPipe body
  else if enc == "base64" then b64Decode (b64Clean body)
  else body

/-- The charset stage of `Decode` (part.go lines 358-383): try the
registry on `Charset`; on failure, if `Charset` looks like
`charset=<x>` overwrite `Charset` with `<x>` and retry; the resulting
stream, the final `Charset` value, and whether a conversion reader
now wraps the stream. -/
def charsetStage (csr : CsReg) (cs : String) (r : List Nat) : List Nat × String × Bool :=
  match csr cs r with
  | some r2 => (r2, cs, true)
  | none =>
    let charsetp := strSplit cs "="
    if lowerStr (charsetp.headD "") == "charset" && charsetp.length > 1 then
      let cs2 := (charsetp.get? 1).getD ""
      match csr cs2 r with
      | some r2 => (r2, cs2, true)
      | none => (r, cs2, false)
    else (r, cs, false)

/-- Observable outcome of one `Decode` call: the bytes readable from
the returned reader, the returned error value, the value of
`p.Charset` after the call (line 368 assigns `p.Charset` on the
salvage path), the value of `p.Errors` after the call, and whether a
charset conversion reader wraps the returned stream. -/
structure DecodeOut where
  bytes : List Nat
  errVal : Option String
  charsetOut : String
  errorsOut : List String
  usedConv : Bool
deriving DecidableEq

/-- Faithful embedding of `Part.Decode` (part.go lines 330-389),
parameterized by the external charset registry and the external
quoted-printable pipeline. -/
def decode (csr : CsReg) (qpPipe : List Nat → List Nat) (p : DPart) : DecodeOut :=
  let enc := lowerStr p.headerEncoding
  let valid := enc == "quoted-printable" || enc == "base64" ||
    enc == "8bit" || enc == "7bit" || enc == "binary" || enc == ""
  let r := transferDecode qpPipe enc p.body
  if valid && !detectAttachment p then
    if p.charset != "" then
      let st := charsetStage csr p.charset r
      ⟨st.1, none, st.2.1, p.errors, st.2.2⟩
    else ⟨r, none, p.charset, p.errors, false⟩
  else ⟨r, none, p.charset, p.errors, false⟩

/-- Latin-1 bytes re-encoded as UTF-8. -/
def latin1ToUtf8 (bs : List Nat) : List Nat :=
  (bs.map (fun b => if b < 128 then [b] else [192 + b / 64, 128 + b % 64])).flatten

/-- Modelled from the spec (§6): a small concrete instance of the
charset registry — identity on `utf-8`/`us-ascii`, Latin-1-to-UTF-8
conversion for `iso-8859-1`, failure on every other label. -/
def csRegModel : CsReg := fun label bytes =>
  if label == "utf-8" || label == "us-ascii" then some bytes
  else if label == "iso-8859-1" then some (latin1ToUtf8 bytes)
  else none

/-- Claim C10: `Decode` returns a nil error for every part, every
registry, and every quoted-printable pipeline — each branch, including
unrecognized transfer encodings and charsets the registry rejects even
after salvage, degrades to a usable reader instead of an error. -/
theorem c10_decode_no_error (csr : CsReg) (qpPipe : List Nat → List Nat) (p : DPart) :
    (decode csr qpPipe p).errVal = none := by
  simp only [decode]
  split
  · split <;> rfl
  · rfl

/-- Claim C6: for every attachment part (per the attachment heuristic
on its headers), `Decode` never wraps the transfer-decoded stream in a
charset conversion reader, whatever the `Charset` value and registry;
and for a base64 attachment the decoded bytes are exactly the raw
base64 decoding of the cleaned body. -/
theorem c6_attachment_no_conversion (csr : CsReg) (qpPipe : List Nat → List Nat) (p : DPart)
    (h : detectAttachment p = true) :
    (decode csr qpPipe p).usedConv = false ∧
      (decode csr qpPipe p).bytes = transferDecode qpPipe (lowerStr p.headerEncoding) p.body ∧
      (lowerStr p.headerEncoding = "base64" →
        (decode csr qpPipe p).bytes = b64Decode (b64Clean p.body)) := by
  simp only [decode, h, Bool.not_true, Bool.and_false, Bool.false_eq_true, if_false]
  refine ⟨trivial, trivial, ?_⟩
  intro henc
  rw [henc]
  rfl

/-- Witness for `c6_attachment_no_conversion`: a concrete base64
attachment with a set charset; its decode is unconverted and equals
the raw base64 decoding (`"TWFu"` decodes to `Man`). -/
theorem c6_attachment_no_conversion_witness :
    detectAttachment ⟨"base64", "utf-8", "attachment", "test.bin", [], [84, 87, 70, 117]⟩ = true ∧
      (decode csRegModel id
        ⟨"base64", "utf-8", "attachment", "test.bin", [], [84, 87, 70, 117]⟩).usedConv = false ∧
      (decode csRegModel id
        ⟨"base64", "utf-8", "attachment", "test.bin", [], [84, 87, 70, 117]⟩).bytes
        = [77, 97, 110] :=
  ⟨by decide,
    (c6_attachment_no_conversion csRegModel id
      ⟨"base64", "utf-8", "attachment", "test.bin", [], [84, 87, 70, 117]⟩ (by decide)).1,
    ((c6_attachment_no_conversion csRegModel id
      ⟨"base64", "utf-8", "attachment", "test.bin", [], [84, 87, 70, 117]⟩ (by decide)).2.2
      (by decide)).trans (by decide)⟩

theorem charsetStage_spec (csr : CsReg) (cs : String) (r : List Nat) :
    (charsetStage csr cs r).2.2 = true ∨ (charsetStage csr cs r).1 = r := by
  unfold charsetStage
  cases csr cs r with
  | some r2 => exact Or.inl rfl
  | none =>
    dsimp only
    split
    · cases csr (((strSplit cs "=").get? 1).getD "") r with
      | some r2 => exact Or.inl rfl
      | none => exact Or.inr rfl
    · exact Or.inr rfl

theorem charsetStage_charsetOut (csr : CsReg) (cs : String) (r : List Nat) :
    (charsetStage csr cs r).2.1 = cs ∨
      (charsetStage csr cs r).2.1 = ((strSplit cs "=").get? 1).getD "" := by
  unfold charsetStage
  cases csr cs r with
  | some r2 => exact Or.inl rfl
  | none =>
    dsimp only
    split
    · cases csr (((strSplit cs "=").get? 1).getD "") r with
      | some r2 => exact Or.inr rfl
      | none => exact Or.inr rfl
    · exact Or.inl rfl

/-- Claim C7 (counterexample): a leaf part with the identity encoding
`7bit` but a non-attachment disposition and charset `iso-8859-1`
decodes to the charset-converted bytes (`0xE9` becomes the UTF-8 pair
`0xC3 0xA9`), not to its raw body region, refuting the claim for
parts that receive a conversion reader. -/
theorem c7_counterexample :
    lowerStr (DPart.headerEncoding ⟨"7bit", "iso-8859-1", "", "", [], [233]⟩) = "7bit" ∧
      (decode csRegModel id ⟨"7bit", "iso-8859-1", "", "", [], [233]⟩).bytes = [195, 169] ∧
      (decode csRegModel id ⟨"7bit", "iso-8859-1", "", "", [], [233]⟩).bytes ≠
        DPart.body ⟨"7bit", "iso-8859-1", "", "", [], [233]⟩ :=
  ⟨by decide, by decide, by decide⟩

/-- Claim C7 (amended): for every leaf part whose
`Content-Transfer-Encoding` (lowercased) is `7bit`, `8bit`, `binary`
or empty, the stream returned by `Decode` yields exactly the raw body
region whenever no charset conversion reader ends up wrapping the
stream (in particular for attachments, empty charsets, or charsets
the registry rejects even after salvage); a successful conversion
reader may transform the bytes. -/
theorem c7_amended (csr : CsReg) (qpPipe : List Nat → List Nat) (p : DPart)
    (henc : lowerStr p.headerEncoding = "7bit" ∨ lowerStr p.headerEncoding = "8bit" ∨
      lowerStr p.headerEncoding = "binary" ∨ lowerStr p.headerEncoding = "")
    (hnc : (decode csr qpPipe p).usedConv = false) :
    (decode csr qpPipe p).bytes = p.body := by
  have hid : transferDecode qpPipe (lowerStr p.headerEncoding) p.body = p.body := by
    rcases henc with h | h | h | h <;> rw [h] <;> rfl
  revert hnc
  simp only [decode, hid]
  split
  · split
    · intro hnc
      rcases charsetStage_spec csr p.charset p.body with hv | hv
      · rw [hv] at hnc; cases hnc
      · exact hv
    · intro _; rfl
  · intro _; rfl

/-- Witness for `c7_amended`: a concrete `7bit` attachment part whose
decode output equals its raw body. -/
theorem c7_amended_witness :
    lowerStr (DPart.headerEncoding ⟨"7bit", "iso-8859-1", "attachment", "", [], [233]⟩)
        = "7bit" ∧
      (decode csRegModel id ⟨"7bit", "iso-8859-1", "attachment", "", [], [233]⟩).usedConv
        = false ∧
      (decode csRegModel id ⟨"7bit", "iso-8859-1", "attachment", "", [], [233]⟩).bytes =
        DPart.body ⟨"7bit", "iso-8859-1", "attachment", "", [], [233]⟩ :=
  ⟨by decide, by decide,
    c7_amended csRegModel id ⟨"7bit", "iso-8859-1", "attachment", "", [], [233]⟩
      (Or.inl (by decide)) (by decide)⟩

/-- Claim C8 (counterexample): calling `Decode` on a part whose
`Charset` is the malformed `"charset=utf-8"` overwrites the part's
`Charset` field with the salvaged value `"utf-8"` (part.go line 368),
so the part tree is not immutable under `Decode`. -/
theorem c8_counterexample :
    (decode csRegModel id ⟨"", "charset=utf-8", "", "", [], [65]⟩).charsetOut = "utf-8" ∧
      (decode csRegModel id ⟨"", "charset=utf-8", "", "", [], [65]⟩).charsetOut ≠
        DPart.charset ⟨"", "charset=utf-8", "", "", [], [65]⟩ :=
  ⟨by decide, by decide⟩

/-- Claim C8 (amended): `Decode` builds only fresh readers and never
touches `Errors` (the commented-out base64-error append is inactive in
this variant), but it does not leave every field unchanged: on the
charset-salvage path it overwrites `Charset` with the text after the
first `=`; otherwise `Charset` is unchanged. -/
theorem c8_amended (csr : CsReg) (qpPipe : List Nat → List Nat) (p : DPart) :
    (decode csr qpPipe p).errorsOut = p.errors ∧
      ((decode csr qpPipe p).charsetOut = p.charset ∨
        (decode csr qpPipe p).charsetOut = ((strSplit p.charset "=").get? 1).getD "") := by
  constructor
  · simp only [decode]
    split
    · split <;> rfl
    · rfl
  · simp only [decode]
    split
    · split
      · exact charsetStage_charsetOut csr p.charset _
      · exact Or.inl rfl
    · exact Or.inl rfl

/-! ### Line-level model of `ReadParts` (part.go 293-310, 413-557, header.go 63-122)

A message is modelled as its list of lines (CRLF terminators
stripped).  The boundary reader — absent from the sources — is
modelled from spec §4.D over whole lines.  The header reader is the
faithful embedding of `readHeader`.  Diagnostics that the code sends
to the global logger (`log.Printf`; the `addWarning` calls that would
append them to `Part.Errors` are commented out) are collected in a log
stream, kept separate from each part's `Errors` field exactly as the
code keeps them. -/

/-- The diagnostic taxonomy (header.go 39-53). -/
inductive Diag where
  | malformedHeader
  | missingContentType
  | missingBoundary
  | contentEncoding
  | charsetConversion
  | malformedBase64
deriving DecidableEq

inductive HErr where
  | emptyHeaderBlock
  | ioErr
  | mimeParse
deriving DecidableEq

def startsSpTab (s : String) : Bool :=
  match s.data with
  | [] => false
  | c :: _ => c == ' ' || c == '\t' || c == '\r' || c == '\n'

def headIsColon (s : String) : Bool :=
  match s.data with
  | [] => false
  | c :: _ => c == ':'

/-- The classification loop of `readHeader` (header.go 68-117) over the
remaining lines, accumulating the massaged buffer: continuation lines
are appended with a space, lines starting with a colon are skipped
with a `MalformedHeader` log, colon lines start a new header, other
nonempty lines are repaired as unindented continuations with a
`MalformedHeader` log, and an empty line ends the block.  At stream
end, `truncated` tells whether the part's reader signalled an
unexpected EOF (spec §4.D): with an empty buffer that is the
`ErrEmptyHeaderBlock` sentinel. -/
def readHeaderLoop : List String → Bool → String → Bool → List Diag →
    Except HErr (String × List String × List Diag)
  | [], truncated, buf, _, logs =>
      if truncated then
        if buf == "" then .error .emptyHeaderBlock else .error .ioErr
      else .ok (buf ++ "\r\n", [], logs)
  | s :: rest, truncated, buf, firstHeader, logs =>
      if startsSpTab s then
        readHeaderLoop rest truncated (buf ++ " " ++ strTrim s) firstHeader logs
      else if headIsColon s then
        readHeaderLoop rest truncated buf firstHeader (logs ++ [.malformedHeader])
      else if strContains s ":" then
        readHeaderLoop rest truncated
          (buf ++ (if firstHeader then "" else "\r\n") ++ strTrim s) false logs
      else if s != "" then
        readHeaderLoop rest truncated (buf ++ " " ++ s) firstHeader (logs ++ [.malformedHeader])
      else
        .ok (buf ++ "\r\n", rest, logs)

def splitFirstCh (ch : Char) : List Char → Option (List Char × List Char)
  | [] => none
  | c :: cs =>
      if c == ch then some ([], cs)
      else (splitFirstCh ch cs).map (fun p => (c :: p.1, p.2))

/-- Modelled from the Go standard library collaborator
`textproto.Reader.ReadMIMEHeader` on the reconstructed CRLF-canonical
buffer: one `Name: value` pair per line up to the first blank line;
a line opening with whitespace or lacking a colon is a parse error. -/
def parseHdrLines : List String → Except HErr (List (String × String))
  | [] => .ok []
  | l :: rest =>
      if l == "" then .ok []
      else if startsSpTab l then .error .mimeParse
      else
        match splitFirstCh ':' l.data with
        | none => .error .mimeParse
        | some (k, v) => (parseHdrLines rest).map (fun h => ((⟨k⟩ : String), strTrim ⟨v⟩) :: h)

/-- Faithful embedding of `readHeader` (header.go 63-122): run the
classification loop, append the final CRLF, and hand the canonical
buffer to the standard MIME header parser. -/
def readHeaderGo (lines : List String) (truncated : Bool) :
    Except HErr (List (String × String) × List String × List Diag) :=
  match readHeaderLoop lines truncated "" true [] with
  | .error e => .error e
  | .ok (buf, rest, logs) =>
      match parseHdrLines (strSplit (buf ++ "\r\n") "\r\n") with
      | .error e => .error e
      | .ok hdr => .ok (hdr, rest, logs)

/-- `textproto.MIMEHeader.Get`: first value stored under the
(case-insensitively matched) key, `""` when absent. -/
def hdrGet : List (String × String) → String → String
  | [], _ => ""
  | (k, v) :: rest, name => if lowerStr k == lowerStr name then v else hdrGet rest name

def paramGet : List (String × String) → String → String
  | [], _ => ""
  | (k, v) :: rest, name => if k == name then v else paramGet rest name

def unquote (s : String) : String :=
  match s.data with
  | '"' :: rest => if rest.getLast? == some '"' then ⟨rest.dropLast⟩ else s
  | _ => s

def strictParams : List String → List (String × String) → Except String (List (String × String))
  | [], acc => .ok acc
  | seg :: rest, acc =>
      let t := strTrim seg
      if t == "" then strictParams rest acc
      else
        match splitFirstCh '=' t.data with
        | none => .error "mime: invalid media parameter"
        | some (k, v) =>
            let key := lowerStr (strTrim ⟨k⟩)
            if acc.any (fun kv => kv.1 == key) then .error "mime: duplicate parameter name"
            else strictParams rest (acc ++ [(key, unquote (strTrim ⟨v⟩))])

/-- Modelled from the spec (§4.C step 1): the strict media-type parser
of the Go standard library (`mime.ParseMediaType`, an external
collaborator) — lowercased `type/subtype`, then `;`-separated `k=v`
parameters with lowercased names and unquoted values; errors on an
empty type, a parameter without `=`, or a duplicate parameter name. -/
def strictParseModel (s : String) : Except String (String × List (String × String)) :=
  match strSplit s ";" with
  | [] => .error "mime: no media type"
  | base :: rest =>
      let mt := lowerStr (strTrim base)
      if mt == "" then .error "mime: no media type"
      else (strictParams rest []).map (fun ps => (mt, ps))

/-- The Content-Type step of `readPart` (part.go 425-450): with no
`Content-Type` header every part keeps the RFC 2046 default
`text/plain; charset=us-ascii` and the missing-content-type message is
written to the log; otherwise the header runs through
`parseMediaType` (fatal on failure), and the lowercased media type
and charset plus the `boundary` parameter are recorded. -/
def ctypeStep (ctype : String) :
    Except String (String × String × String × Bool) :=
  if ctype == "" then .ok ("text/plain", "us-ascii", "", true)
  else
    match parseMediaTypeG strictParseModel ctype with
    | (_, _, some e) => .error e
    | (mt, ps, none) =>
        .ok (lowerStr mt, lowerStr (paramGet ps "charset"), paramGet ps "boundary", false)

/-- A parsed part, reduced to the fields claims C3-C5 are about. -/
inductive LPart where
  | mk (descriptor contentType charset boundary : String)
      (errors : List String) (subparts : List LPart) (epilogue : List String)

def LPart.descriptor : LPart → String
  | .mk d _ _ _ _ _ _ => d

def LPart.contentType : LPart → String
  | .mk _ ct _ _ _ _ _ => ct

def LPart.charset : LPart → String
  | .mk _ _ cs _ _ _ _ => cs

def LPart.boundary : LPart → String
  | .mk _ _ _ b _ _ _ => b

def LPart.errors : LPart → List String
  | .mk _ _ _ _ e _ _ => e

def LPart.subparts : LPart → List LPart
  | .mk _ _ _ _ _ s _ => s

def LPart.epilogue : LPart → List String
  | .mk _ _ _ _ _ _ ep => ep

inductive PErr where
  | emptyHeaderBlock
  | header (e : HErr)
  | mediaType (e : String)
  | fuelOut
deriving DecidableEq

def isWSChar (c : Char) : Bool := c == ' ' || c == '\t' || c == '\r'

def stripTrailWS (s : String) : String :=
  ⟨(s.data.reverse.dropWhile isWSChar).reverse⟩

/-- Modelled from the spec (§4.D): a line is a dash-boundary when it is
`--B` up to trailing whitespace. -/
def isDashLine (b l : String) : Bool := stripTrailWS l == "--" ++ b

/-- Modelled from the spec (§4.D): a line is the close delimiter when
it is `--B--` up to trailing whitespace. -/
def isCloseLine (b l : String) : Bool := stripTrailWS l == "--" ++ b ++ "--"

inductive BNext where
  | found (rest : List String)
  | closed (rest : List String)
  | eofNext

/-- Modelled from the spec (§4.D): `boundaryReader.Next` — skip to the
next dash-boundary (`found`), stop at the close delimiter (`closed`),
or report EOF.  Preamble and unconsumed body lines are discarded
silently. -/
def bdNext (b : String) : List String → BNext
  | [] => .eofNext
  | l :: ls =>
      if isCloseLine b l then .closed ls
      else if isDashLine b l then .found ls
      else bdNext b ls

/-- Modelled from the spec (§4.D): the lines of the current part body,
up to (excluding) the next delimiter line; the flag records an EOF
with the part still open (surfaced to the header reader as an
unexpected EOF). -/
def takeBody (b : String) : List String → (List String × Bool × List String)
  | [] => ([], true, [])
  | l :: ls =>
      if isCloseLine b l || isDashLine b l then ([], false, l :: ls)
      else
        let r := takeBody b ls
        (l :: r.1, r.2.1, r.2.2)

mutual
/-- Faithful embedding of `Part.readPart` (part.go 413-488) at line
level: read the header block (propagating `ErrEmptyHeaderBlock`),
apply the Content-Type step, then recurse into `parseParts` for a
nonempty boundary, create the descriptor-inheriting inner part for
`message/rfc822`, or drain a leaf.  `Part.Errors` is never appended
to; diagnostics go to the log stream. -/
def readPartL (fuel : Nat) (isRoot : Bool) (desc : String) (stream : List String)
    (truncated : Bool) : Except PErr (LPart × List Diag) :=
  match fuel with
  | 0 => .error .fuelOut
  | fuel + 1 =>
    match readHeaderGo stream truncated with
    | .error .emptyHeaderBlock => .error .emptyHeaderBlock
    | .error e => .error (.header e)
    | .ok (hdr, rest, hlogs) =>
      match ctypeStep (hdrGet hdr "Content-Type") with
      | .error e => .error (.mediaType e)
      | .ok (ct, cs, bd, missedCT) =>
        let logs := hlogs ++ (if missedCT then [Diag.missingContentType] else [])
        if bd != "" then
          match parsePartsL fuel (if isRoot then "0" else desc) isRoot bd rest with
          | .error e => .error e
          | .ok (subs, epi, plogs) =>
              .ok (.mk (if isRoot then "0" else desc ++ ".0") ct cs bd [] subs epi,
                logs ++ plogs)
        else if ct == "message/rfc822" then
          match readPartL fuel false desc rest truncated with
          | .error e => .error e
          | .ok (inner, ilogs) => .ok (.mk desc ct cs "" [] [inner] [], logs ++ ilogs)
        else .ok (.mk desc ct cs "" [] [] [], logs)
/-- Entry of `parseParts` (part.go 491-501): construct the boundary
reader and run the sibling loop from `indexDescriptor` 1. -/
def parsePartsL (fuel : Nat) (parentDesc : String) (isRootParent : Bool) (b : String)
    (lines : List String) : Except PErr (List LPart × List String × List Diag) :=
  match fuel with
  | 0 => .error .fuelOut
  | fuel + 1 => partsLoop fuel parentDesc isRootParent b 1 lines [] []

/-- The `parseParts` loop (part.go 502-548): `Next` per iteration;
a part whose header block is empty because the trailing `--` was
omitted triggers a probe `Next`, and on EOF the loop logs
`MissingBoundary` and stops, keeping every part read so far; the
lines after the close delimiter become the epilogue. -/
def partsLoop (fuel : Nat) (parentDesc : String) (isRootParent : Bool) (b : String)
    (i : Nat) (lines : List String) (acc : List LPart) (logs : List Diag) :
    Except PErr (List LPart × List String × List Diag) :=
  match fuel with
  | 0 => .error .fuelOut
  | fuel + 1 =>
    match bdNext b lines with
    | .eofNext => .ok (acc, [], logs)
    | .closed rest => .ok (acc, rest, logs)
    | .found rest =>
      let body := takeBody b rest
      let childDesc := if isRootParent then Nat.repr i else parentDesc ++ "." ++ Nat.repr i
      match readPartL fuel false childDesc body.1 body.2.1 with
      | .ok (c, clogs) =>
          partsLoop fuel parentDesc isRootParent b (i + 1) body.2.2 (acc ++ [c])
            (logs ++ clogs)
      | .error .emptyHeaderBlock =>
          match bdNext b body.2.2 with
          | .eofNext => .ok (acc, [], logs ++ [Diag.missingBoundary])
          | .found rest2 => partsLoop fuel parentDesc isRootParent b (i + 1) rest2 acc logs
          | .closed rest2 => partsLoop fuel parentDesc isRootParent b (i + 1) rest2 acc logs
      | .error e => .error e
end

/-- `ReadParts` (part.go 293-310): parse the whole message from its
lines; the root enters `readPart` with an empty descriptor and a
clean-EOF stream. -/
def readPartsL (msg : List String) : Except PErr (LPart × List Diag) :=
  readPartL (4 * (msg.length + 2)) true "" msg false

/-! ### Claims C3, C4, C5 -/

/-- A two-part multipart whose second child's header lacks a
`Content-Type` header. -/
def msgMissingCT : List String :=
  ["Content-Type: multipart/mixed; boundary=b", "",
   "--b", "X-Other: 1", "", "body line", "--b--"]

/-- A single-part message with no `Content-Type` on the root. -/
def msgMissingCTRoot : List String := ["X-Other: 1", "", "body"]

/-- A multipart whose final boundary line omits the `--` terminator,
so the close delimiter `--b--` never appears. -/
def msgNoClose : List String :=
  ["Content-Type: multipart/alternative; boundary=b", "",
   "--b", "Content-Type: text/plain", "", "Section one",
   "--b", "Content-Type: text/html", "", "Section two",
   "--b"]

/-- A multipart whose first child's header block starts with a line
beginning with a colon (a malformed header line). -/
def msgBadHeader : List String :=
  ["Content-Type: multipart/mixed; boundary=b", "",
   "--b", ": bad line", "Content-Type: text/plain", "", "content", "--b--"]

/-- Claim C3 (counterexample): parsing a multipart whose child has no
`Content-Type` header, `readPart` DOES give that non-root child the
`text/plain` / `us-ascii` default (refuting "ContentType and Charset
are not set"), the diagnostic goes to the log stream, and the child's
`Errors` field stays empty. -/
theorem c3_counterexample :
    readPartsL msgMissingCT =
      Except.ok (.mk "0" "multipart/mixed" "" "b" []
          [.mk "1" "text/plain" "us-ascii" "" [] [] []] [],
        [Diag.missingContentType]) := rfl

/-- Claim C3 (amended): every part whose header block lacks a
`Content-Type` header — non-root or root alike — receives the
`text/plain; charset=us-ascii` default, and the missing-content-type
diagnostic is written to the log (not appended to `Errors`) for every
such part, the root included (the root is not silent): the
Content-Type step yields the default with the diagnostic flag for any
part, and a root without `Content-Type` parses to the defaulted part
with the diagnostic logged and empty `Errors`. -/
theorem c3_amended :
    ctypeStep "" = .ok ("text/plain", "us-ascii", "", true) ∧
      readPartsL msgMissingCTRoot =
        Except.ok (.mk "" "text/plain" "us-ascii" "" [] [] [],
          [Diag.missingContentType]) :=
  ⟨rfl, rfl⟩

/-- Claim C4: on a multipart input whose close delimiter `--b--` is
missing (final delimiter written `--b`), the parse succeeds, the
enclosing multipart keeps both parts that appeared before EOF, and
`MissingBoundary` is only written to the log stream while every
`Errors` field — including the enclosing part's — stays empty
(the `addWarning` call is commented out, `// TODO`). -/
theorem c4_code_eval :
    readPartsL msgNoClose =
      Except.ok (.mk "0" "multipart/alternative" "" "b" []
          [.mk "1" "text/plain" "" "" [] [] [],
            .mk "2" "text/html" "" "" [] [] []] [],
        [Diag.missingBoundary]) := rfl

/-- Claim C5: a malformed header line (leading colon) inside a part is
skipped, the parse succeeds and the part is kept — but the
`MalformedHeader` diagnostic goes only to the global log; the affected
part's `Errors` field stays empty, contradicting `readHeader`'s own
doc comment ("Header parse warnings & errors will be added to
p.Errors"). -/
theorem c5_code_eval :
    readPartsL msgBadHeader =
      Except.ok (.mk "0" "multipart/mixed" "" "b" []
          [.mk "1" "text/plain" "" "" [] [] []] [],
        [Diag.malformedHeader]) := rfl

end Mime
